import Mathlib

set_option maxHeartbeats 1600000
set_option maxRecDepth 4096

/-!
Verification development for a flat-file vehicle status tracker.

The program keeps its records in a delimited text file (standard dialect:
comma delimiter, double-quote quote character, doubled quotes inside quoted
fields, CRLF row terminator, minimal quoting).  We model the persisted file
as an optional character list (missing file versus file contents), the
reader and writer of the delimited format as pure functions, and each store
and handler operation as an explicit state-passing function translated from
the source.
-/

namespace VTrack

/-- Modes of the delimited-text reader state machine: at the start of a
field, inside an unquoted field, inside a quoted field, and just after a
quote character inside a quoted field. -/
inductive CsvMode
  | startF
  | inF
  | inQ
  | quoteQ

/-- The current field accumulator (characters in reverse order) as a string. -/
def fieldStr (fa : List Char) : String := String.mk fa.reverse

/-- Close the current row: the pending field is appended to the fields read
so far (held in reverse order). -/
def emitRow (fa : List Char) (ra : List String) : List String :=
  (fieldStr fa :: ra).reverse

/-- The reader state machine of the delimited format, one character at a
time.  Arguments: remaining input, mode, current field accumulator
(reversed), fields of the current row (reversed).  A row terminator is
CRLF, a bare LF, or a bare CR; a blank line yields an empty row (which the
record-level reader skips); a quote inside an unquoted field is literal;
outside of strict mode a stray character after a closing quote rejoins the
field, and end of input inside quotes closes the field. -/
def parseCSV : List Char → CsvMode → List Char → List String → List (List String)
  | [], .startF, fa, ra => if fa.isEmpty && ra.isEmpty then [] else [emitRow fa ra]
  | [], .inF, fa, ra => [emitRow fa ra]
  | [], .inQ, fa, ra => [emitRow fa ra]
  | [], .quoteQ, fa, ra => [emitRow fa ra]
  | c :: cs, .startF, fa, ra =>
    if c = '"' then parseCSV cs .inQ fa ra
    else if c = ',' then parseCSV cs .startF [] ("" :: ra)
    else if c = '\n' then
      (if ra.isEmpty then [] else emitRow fa ra) :: parseCSV cs .startF [] []
    else if c = '\r' then
      (if ra.isEmpty then [] else emitRow fa ra) ::
        (match cs with
         | '\n' :: ds => parseCSV ds .startF [] []
         | ds => parseCSV ds .startF [] [])
    else parseCSV cs .inF (c :: fa) ra
  | c :: cs, .inF, fa, ra =>
    if c = ',' then parseCSV cs .startF [] (fieldStr fa :: ra)
    else if c = '\n' then emitRow fa ra :: parseCSV cs .startF [] []
    else if c = '\r' then
      emitRow fa ra ::
        (match cs with
         | '\n' :: ds => parseCSV ds .startF [] []
         | ds => parseCSV ds .startF [] [])
    else parseCSV cs .inF (c :: fa) ra
  | c :: cs, .inQ, fa, ra =>
    if c = '"' then parseCSV cs .quoteQ fa ra
    else parseCSV cs .inQ (c :: fa) ra
  | c :: cs, .quoteQ, fa, ra =>
    if c = '"' then parseCSV cs .inQ ('"' :: fa) ra
    else if c = ',' then parseCSV cs .startF [] (fieldStr fa :: ra)
    else if c = '\n' then emitRow fa ra :: parseCSV cs .startF [] []
    else if c = '\r' then
      emitRow fa ra ::
        (match cs with
         | '\n' :: ds => parseCSV ds .startF [] []
         | ds => parseCSV ds .startF [] [])
    else parseCSV cs .inF (c :: fa) ra

/-- Parse a whole file into its rows of fields. -/
def csvParse (l : List Char) : List (List String) := parseCSV l .startF [] []

/-- Characters that force the writer to quote a field: the delimiter, the
quote character, and the characters of the row terminator. -/
def specialChar (c : Char) : Bool := c = ',' || c = '"' || c = '\r' || c = '\n'

def needsQuote (f : String) : Bool := f.toList.any specialChar

/-- Double every quote character, as the writer does inside quoted fields. -/
def escapeQuotes : List Char → List Char
  | [] => []
  | c :: cs => if c = '"' then '"' :: '"' :: escapeQuotes cs else c :: escapeQuotes cs

/-- Minimal quoting: a field is quoted exactly when it contains a special
character. -/
def renderField (f : String) : List Char :=
  if needsQuote f then '"' :: (escapeQuotes f.toList ++ ['"']) else f.toList

def renderFields : List String → List Char
  | [] => []
  | [f] => renderField f
  | f :: fs => renderField f ++ ',' :: renderFields fs

/-- One written row: fields joined by the delimiter plus the CRLF
terminator.  A row consisting of a single empty field is quoted so that it
is not read back as a blank line. -/
def writeRow (fs : List String) : List Char :=
  (if fs = [""] then ['"', '"'] else renderFields fs) ++ ['\r', '\n']

/-- The fixed column names, in fixed order (FIELDNAMES in the source). -/
def FIELDNAMES : List String :=
  ["timestamp", "handled_by", "stock_id", "vin", "current_location", "previous_location"]

/-- One update record, with the six fields of the data model. -/
structure Rec where
  timestamp : String
  handled_by : String
  stock_id : String
  vin : String
  current_location : String
  previous_location : String
deriving DecidableEq

/-- The row written for a record: its fields in column order. -/
def recRow (r : Rec) : List String :=
  [r.timestamp, r.handled_by, r.stock_id, r.vin, r.current_location, r.previous_location]

/-- A record as read back: column names associated with optional values
(a missing value stands for a row shorter than the header). -/
abbrev Dict := List (String × Option String)

/-- Pair the header names with the values of one data row; names beyond the
end of the row get no value. -/
def zipHeader : List String → List String → Dict
  | [], _ => []
  | n :: ns, [] => (n, none) :: zipHeader ns []
  | n :: ns, v :: vs => (n, some v) :: zipHeader ns vs

/-- Dictionary lookup with a default, as in row.get(key, default): the
default applies only when the key is absent, not when its value is empty. -/
def pyGet (d : Dict) (k : String) (dfl : Option String) : Option String :=
  match d.find? (fun p => decide (p.1 = k)) with
  | some p => p.2
  | none => dfl

/-- The record-level reader: the first row is the header, every later
non-blank row becomes a dictionary keyed by the header names. -/
def dictReader (l : List Char) : List Dict :=
  match csvParse l with
  | [] => []
  | header :: rows => (rows.filter (fun r => !r.isEmpty)).map (zipHeader header)

/-- The persisted-file state: none when the backing file does not exist,
otherwise its contents. -/
abbrev St := Option (List Char)

/-- File contents after the initialization check has run: a missing file
becomes a file holding only the header row. -/
def initContents : St → List Char
  | none => writeRow FIELDNAMES
  | some c => c

/-- init_csv in the source: create the backing file with only a header row
when it does not already exist. -/
def init_csv (s : St) : St := some (initContents s)

/-- load_records in the source: ensure the file exists, then read every
record; returns the records together with the resulting file state. -/
def load_records (s : St) : List Dict × St :=
  (dictReader (initContents s), init_csv s)

/-- find_previous_location in the source: none when the file is missing;
otherwise scan every record and keep the current_location of each record
whose vin or stock_id matches, except that an empty or missing location
leaves the previously remembered one in place. -/
def find_previous_location (vin stock_id : String) (s : St) : Option String :=
  match s with
  | none => none
  | some c =>
    (dictReader c).foldl
      (fun previous row =>
        if pyGet row "vin" none = some vin ∨ pyGet row "stock_id" none = some stock_id then
          match pyGet row "current_location" none with
          | some v => if v = "" then previous else some v
          | none => previous
        else previous)
      none

/-- find_latest_record_by_vin in the source: load all records and keep the
last whose vin matches. -/
def find_latest_record_by_vin (vin : String) (s : St) : Option Dict × St :=
  let p := load_records s
  (p.1.foldl (fun latest row => if pyGet row "vin" none = some vin then some row else latest) none,
   p.2)

/-- The row written back for one retained dictionary during deletion: the
value of each fixed column, a missing column written as empty. -/
def dictWriteRow (d : Dict) : List Char :=
  writeRow (FIELDNAMES.map (fun k => (pyGet d k (some "")).getD ""))

/-- delete_records_by_vin in the source: ensure the file exists, read every
record, drop those whose vin matches while counting them, and rewrite the
file as the header row followed by the retained records in order. -/
def delete_records_by_vin (vin : String) (s : St) : Nat × St :=
  let c := initContents s
  let rows := dictReader c
  let acc := rows.foldl
    (fun (acc : Nat × List Dict) row =>
      if pyGet row "vin" none = some vin then (acc.1 + 1, acc.2) else (acc.1, acc.2 ++ [row]))
    ((0 : Nat), ([] : List Dict))
  (acc.1, some (writeRow FIELDNAMES ++ (acc.2.map dictWriteRow).flatten))

/-- build_excel in the source: load all records and project them onto the
fixed columns; returns the artifact rows and the resulting file state. -/
def build_excel (s : St) : List (List (Option String)) × St :=
  let p := load_records s
  (p.1.map (fun row => FIELDNAMES.map (fun k => pyGet row k none)), p.2)

/-- build_pdf in the source: load all records and render each fixed column
value truncated to fifty characters; a column missing from a row is
rendered empty. -/
def build_pdf (s : St) : List (List (Option String)) × St :=
  let p := load_records s
  (p.1.map (fun row => FIELDNAMES.map (fun k => (pyGet row k (some "")).map (fun v => v.take 50))),
   p.2)

/-- download_csv in the source, restricted to its effect on the store:
ensure the file exists, then serve it unchanged. -/
def download_csv (s : St) : St := init_csv s

/-- Whitespace for the purposes of input trimming (the strip operation of
the host language; its further exotic space code points are not relevant
here). -/
def isSpaceChar (c : Char) : Bool :=
  c = ' ' || c = '\t' || c = '\n' || c = '\r' || c = '\x0b' || c = '\x0c'

/-- The strip operation applied to every form input: remove leading and
trailing whitespace. -/
def pyStrip (s : String) : String :=
  String.mk (((s.toList.dropWhile isSpaceChar).reverse.dropWhile isSpaceChar).reverse)

/-- An HTTP redirect response: target and status code. -/
structure Redirect where
  url : String
  status : Nat
deriving DecidableEq

/-- The row written when a record is appended. -/
def renderRec (r : Rec) : List Char := writeRow (recRow r)

/-- Appending one record: the file is opened in append mode, which creates
an empty file when it is missing, and the rendered row is written at the
end.  Note that no header is written for a fresh file. -/
def appendRec (r : Rec) (s : St) : St :=
  some ((match s with | none => [] | some c => c) ++ renderRec r)

/-- submit in the source (the update-form POST handler): trim the four
inputs, reject with an error redirect when any is blank, otherwise look up
the previous location, append one record stamped with the server clock
value given as now, and answer with a success redirect. -/
def submit (now handled_by vin stock_id current_location : String) (s : St) : Redirect × St :=
  let hb := pyStrip handled_by
  let v := pyStrip vin
  let sid := pyStrip stock_id
  let loc := pyStrip current_location
  if hb = "" ∨ v = "" ∨ sid = "" ∨ loc = "" then
    (⟨"/update?error=All%20fields%20are%20required.", 303⟩, s)
  else
    let previous_location := find_previous_location v sid s
    (⟨"/update?success=Saved%20update.", 303⟩,
     appendRec ⟨now, hb, sid, v, loc, previous_location.getD ""⟩ s)

/-- A well-formed store file: the header row followed by the rendered rows
of the given records, in order. -/
def mkStore (recs : List Rec) : St :=
  some (writeRow FIELDNAMES ++ (recs.map renderRec).flatten)

/-- The dictionary read back for a record appended to a well-formed store. -/
def dictOfRec (r : Rec) : Dict :=
  [("timestamp", some r.timestamp), ("handled_by", some r.handled_by),
   ("stock_id", some r.stock_id), ("vin", some r.vin),
   ("current_location", some r.current_location), ("previous_location", some r.previous_location)]

/-- The store operations named by the header invariant claim. -/
inductive Op
  | opInit
  | opAppend (r : Rec)
  | opDelete (vin : String)

/-- One store operation applied to the file state. -/
def applyOp (s : St) : Op → St
  | .opInit => init_csv s
  | .opAppend r => appendRec r s
  | .opDelete v => (delete_records_by_vin v s).2

theorem mk_toList (s : String) : String.mk s.toList = s := rfl

theorem specialChar_iff (c : Char) :
    specialChar c = false ↔ c ≠ ',' ∧ c ≠ '"' ∧ c ≠ '\r' ∧ c ≠ '\n' := by
  simp [specialChar]
  tauto

theorem startF_quote (cs : List Char) (fa : List Char) (ra : List String) :
    parseCSV ('"' :: cs) CsvMode.startF fa ra = parseCSV cs CsvMode.inQ fa ra := by
  rw [parseCSV.eq_def]
  simp

theorem startF_comma (cs : List Char) (fa : List Char) (ra : List String) :
    parseCSV (',' :: cs) CsvMode.startF fa ra = parseCSV cs CsvMode.startF [] ("" :: ra) := by
  rw [parseCSV.eq_def]
  simp

theorem startF_crlf (cs : List Char) (fa : List Char) (ra : List String) :
    parseCSV ('\r' :: '\n' :: cs) CsvMode.startF fa ra
      = (if ra.isEmpty then [] else emitRow fa ra) :: parseCSV cs CsvMode.startF [] [] := by
  rw [parseCSV.eq_def]
  simp

theorem startF_other (c : Char) (hc : specialChar c = false) (cs : List Char)
    (fa : List Char) (ra : List String) :
    parseCSV (c :: cs) CsvMode.startF fa ra = parseCSV cs CsvMode.inF (c :: fa) ra := by
  obtain ⟨h1, h2, h3, h4⟩ := (specialChar_iff c).mp hc
  rw [parseCSV.eq_def]
  simp [h1, h2, h3, h4]

theorem inF_comma (cs : List Char) (fa : List Char) (ra : List String) :
    parseCSV (',' :: cs) CsvMode.inF fa ra
      = parseCSV cs CsvMode.startF [] (fieldStr fa :: ra) := by
  rw [parseCSV.eq_def]
  simp

theorem inF_crlf (cs : List Char) (fa : List Char) (ra : List String) :
    parseCSV ('\r' :: '\n' :: cs) CsvMode.inF fa ra
      = emitRow fa ra :: parseCSV cs CsvMode.startF [] [] := by
  rw [parseCSV.eq_def]
  simp

theorem inF_other (c : Char) (hc : specialChar c = false) (cs : List Char)
    (fa : List Char) (ra : List String) :
    parseCSV (c :: cs) CsvMode.inF fa ra = parseCSV cs CsvMode.inF (c :: fa) ra := by
  obtain ⟨h1, h2, h3, h4⟩ := (specialChar_iff c).mp hc
  rw [parseCSV.eq_def]
  simp [h1, h2, h3, h4]

theorem inQ_quote (cs : List Char) (fa : List Char) (ra : List String) :
    parseCSV ('"' :: cs) CsvMode.inQ fa ra = parseCSV cs CsvMode.quoteQ fa ra := by
  rw [parseCSV.eq_def]
  simp

theorem inQ_other (c : Char) (hc : c ≠ '"') (cs : List Char)
    (fa : List Char) (ra : List String) :
    parseCSV (c :: cs) CsvMode.inQ fa ra = parseCSV cs CsvMode.inQ (c :: fa) ra := by
  rw [parseCSV.eq_def]
  simp [hc]

theorem quoteQ_quote (cs : List Char) (fa : List Char) (ra : List String) :
    parseCSV ('"' :: cs) CsvMode.quoteQ fa ra = parseCSV cs CsvMode.inQ ('"' :: fa) ra := by
  rw [parseCSV.eq_def]
  simp

theorem quoteQ_comma (cs : List Char) (fa : List Char) (ra : List String) :
    parseCSV (',' :: cs) CsvMode.quoteQ fa ra
      = parseCSV cs CsvMode.startF [] (fieldStr fa :: ra) := by
  rw [parseCSV.eq_def]
  simp

theorem quoteQ_crlf (cs : List Char) (fa : List Char) (ra : List String) :
    parseCSV ('\r' :: '\n' :: cs) CsvMode.quoteQ fa ra
      = emitRow fa ra :: parseCSV cs CsvMode.startF [] [] := by
  rw [parseCSV.eq_def]
  simp

theorem parse_inF_comma (l : List Char) (h : ∀ c ∈ l, specialChar c = false)
    (fa : List Char) (ra : List String) (rest : List Char) :
    parseCSV (l ++ ',' :: rest) CsvMode.inF fa ra
      = parseCSV rest CsvMode.startF [] (fieldStr (l.reverse ++ fa) :: ra) := by
  induction l generalizing fa with
  | nil => simp [inF_comma]
  | cons c l ih =>
    have hc := h c (by simp)
    have hrest : ∀ x ∈ l, specialChar x = false := fun x hx => h x (by simp [hx])
    rw [List.cons_append, inF_other c hc, ih hrest (c :: fa)]
    simp [List.append_assoc]

theorem parse_inF_crlf (l : List Char) (h : ∀ c ∈ l, specialChar c = false)
    (fa : List Char) (ra : List String) (rest : List Char) :
    parseCSV (l ++ '\r' :: '\n' :: rest) CsvMode.inF fa ra
      = emitRow (l.reverse ++ fa) ra :: parseCSV rest CsvMode.startF [] [] := by
  induction l generalizing fa with
  | nil => simp [inF_crlf]
  | cons c l ih =>
    have hc := h c (by simp)
    have hrest : ∀ x ∈ l, specialChar x = false := fun x hx => h x (by simp [hx])
    rw [List.cons_append, inF_other c hc, ih hrest (c :: fa)]
    simp [List.append_assoc]

theorem parse_inQ_escape (l : List Char) (fa : List Char) (ra : List String)
    (rest : List Char) :
    parseCSV (escapeQuotes l ++ '"' :: rest) CsvMode.inQ fa ra
      = parseCSV rest CsvMode.quoteQ (l.reverse ++ fa) ra := by
  induction l generalizing fa with
  | nil => simp [escapeQuotes, inQ_quote]
  | cons c l ih =>
    by_cases hc : c = '"'
    · subst hc
      rw [show escapeQuotes ('"' :: l) = '"' :: '"' :: escapeQuotes l by simp [escapeQuotes]]
      rw [List.cons_append, List.cons_append, inQ_quote, quoteQ_quote, ih ('"' :: fa)]
      simp [List.append_assoc]
    · rw [show escapeQuotes (c :: l) = c :: escapeQuotes l by simp [escapeQuotes, hc]]
      rw [List.cons_append, inQ_other c hc, ih (c :: fa)]
      simp [List.append_assoc]

theorem toList_mk (l : List Char) : (String.mk l).toList = l := rfl

theorem parse_renderField_comma (f : String) (ra : List String) (rest : List Char) :
    parseCSV (renderField f ++ ',' :: rest) CsvMode.startF [] ra
      = parseCSV rest CsvMode.startF [] (f :: ra) := by
  obtain ⟨m⟩ := f
  by_cases hq : needsQuote (String.mk m)
  · rw [show renderField (String.mk m) ++ ',' :: rest
        = '"' :: (escapeQuotes m ++ '"' :: (',' :: rest)) by
          simp [renderField, hq, toList_mk, List.append_assoc]]
    rw [startF_quote, parse_inQ_escape, quoteQ_comma]
    simp [fieldStr]
  · have hclean : ∀ c ∈ m, specialChar c = false := by
      intro c hc
      by_contra hbad
      have hnq : needsQuote (String.mk m) = true := by
        simp only [needsQuote, toList_mk]
        exact List.any_eq_true.mpr ⟨c, hc, by simpa using hbad⟩
      exact hq hnq
    rw [show renderField (String.mk m) = m by simp [renderField, hq, toList_mk]]
    cases m with
    | nil =>
      rw [List.nil_append, startF_comma]
    | cons c l =>
      have hc : specialChar c = false := hclean c (List.mem_cons_self c l)
      have hl : ∀ x ∈ l, specialChar x = false :=
        fun x hx => hclean x (List.mem_cons_of_mem c hx)
      rw [List.cons_append, startF_other c hc, parse_inF_comma l hl]
      rw [show fieldStr (l.reverse ++ [c]) = String.mk (c :: l) by
        simp [fieldStr, List.reverse_append]]

theorem parse_renderField_crlf (f : String) (ra : List String) (hra : ra ≠ [])
    (rest : List Char) :
    parseCSV (renderField f ++ '\r' :: '\n' :: rest) CsvMode.startF [] ra
      = ((f :: ra).reverse) :: parseCSV rest CsvMode.startF [] [] := by
  obtain ⟨m⟩ := f
  by_cases hq : needsQuote (String.mk m)
  · rw [show renderField (String.mk m) ++ '\r' :: '\n' :: rest
        = '"' :: (escapeQuotes m ++ '"' :: ('\r' :: '\n' :: rest)) by
          simp [renderField, hq, toList_mk, List.append_assoc]]
    rw [startF_quote, parse_inQ_escape, quoteQ_crlf]
    simp [emitRow, fieldStr]
  · have hclean : ∀ c ∈ m, specialChar c = false := by
      intro c hc
      by_contra hbad
      have hnq : needsQuote (String.mk m) = true := by
        simp only [needsQuote, toList_mk]
        exact List.any_eq_true.mpr ⟨c, hc, by simpa using hbad⟩
      exact hq hnq
    rw [show renderField (String.mk m) = m by simp [renderField, hq, toList_mk]]
    cases m with
    | nil =>
      rw [List.nil_append, startF_crlf]
      cases ra with
      | nil => exact absurd rfl hra
      | cons r rs => simp [emitRow, fieldStr]
    | cons c l =>
      have hc : specialChar c = false := hclean c (List.mem_cons_self c l)
      have hl : ∀ x ∈ l, specialChar x = false :=
        fun x hx => hclean x (List.mem_cons_of_mem c hx)
      rw [List.cons_append, startF_other c hc, parse_inF_crlf l hl]
      simp [emitRow, fieldStr, List.reverse_append]

theorem parse_renderFields (gs : List String) :
    ∀ (f : String) (ra : List String), (ra ≠ [] ∨ gs ≠ []) → ∀ rest : List Char,
    parseCSV (renderFields (f :: gs) ++ '\r' :: '\n' :: rest) CsvMode.startF [] ra
      = (ra.reverse ++ f :: gs) :: parseCSV rest CsvMode.startF [] [] := by
  induction gs with
  | nil =>
    intro f ra h rest
    have hra : ra ≠ [] := by
      rcases h with h | h
      · exact h
      · exact absurd rfl h
    rw [show renderFields [f] = renderField f from rfl, parse_renderField_crlf f ra hra]
    simp
  | cons g gs2 ih =>
    intro f ra _ rest
    rw [show renderFields (f :: g :: gs2) = renderField f ++ ',' :: renderFields (g :: gs2)
        from rfl]
    rw [List.append_assoc, List.cons_append, parse_renderField_comma]
    rw [ih g (f :: ra) (Or.inl (by simp)) rest]
    simp [List.append_assoc]

theorem parse_writeRow_two (f g : String) (gs : List String) (rest : List Char) :
    parseCSV (writeRow (f :: g :: gs) ++ rest) CsvMode.startF [] []
      = (f :: g :: gs) :: parseCSV rest CsvMode.startF [] [] := by
  have hne : (f :: g :: gs) ≠ [""] := by simp
  rw [show writeRow (f :: g :: gs) = renderFields (f :: g :: gs) ++ ['\r', '\n'] by
    simp [writeRow, hne]]
  rw [List.append_assoc]
  rw [show (['\r', '\n'] : List Char) ++ rest = '\r' :: '\n' :: rest from rfl]
  rw [parse_renderFields (g :: gs) f [] (Or.inr (by simp)) rest]
  simp

theorem csvParse_writeRows (rows : List (List String)) (h : ∀ r ∈ rows, 2 ≤ r.length) :
    csvParse ((rows.map writeRow).flatten) = rows := by
  induction rows with
  | nil => rfl
  | cons r rows ih =>
    have h2 := h r (by simp)
    have hrows : ∀ x ∈ rows, 2 ≤ x.length := fun x hx => h x (by simp [hx])
    rcases r with _ | ⟨f, r2⟩
    · simp at h2
    rcases r2 with _ | ⟨g, gs⟩
    · simp at h2
    rw [List.map_cons, List.flatten_cons]
    show parseCSV (writeRow (f :: g :: gs) ++ (rows.map writeRow).flatten)
      CsvMode.startF [] [] = _
    rw [parse_writeRow_two]
    rw [show parseCSV ((rows.map writeRow).flatten) CsvMode.startF [] []
        = csvParse ((rows.map writeRow).flatten) from rfl]
    rw [ih hrows]

theorem csvParse_mkStore (recs : List Rec) :
    csvParse (writeRow FIELDNAMES ++ (recs.map renderRec).flatten)
      = FIELDNAMES :: recs.map recRow := by
  have hflat : writeRow FIELDNAMES ++ (recs.map renderRec).flatten
      = (((FIELDNAMES :: recs.map recRow)).map writeRow).flatten := by
    rw [List.map_cons, List.flatten_cons, List.map_map]
    rfl
  rw [hflat, csvParse_writeRows]
  intro r hr
  rcases List.mem_cons.mp hr with hr | hr
  · subst hr
    simp [FIELDNAMES]
  · obtain ⟨x, _, rfl⟩ := List.mem_map.mp hr
    simp [recRow]

theorem dictReader_mkStore (recs : List Rec) :
    dictReader (writeRow FIELDNAMES ++ (recs.map renderRec).flatten)
      = recs.map dictOfRec := by
  simp only [dictReader, csvParse_mkStore]
  rw [List.filter_eq_self.mpr]
  · rw [List.map_map]
    rfl
  · intro x hx
    obtain ⟨r, _, rfl⟩ := List.mem_map.mp hx
    rfl

theorem load_records_mkStore (recs : List Rec) :
    load_records (mkStore recs) = (recs.map dictOfRec, mkStore recs) := by
  simp only [load_records, mkStore, initContents, init_csv, dictReader_mkStore]

theorem appendRec_mkStore (r : Rec) (recs : List Rec) :
    appendRec r (mkStore recs) = mkStore (recs ++ [r]) := by
  simp [appendRec, mkStore, List.append_assoc]

theorem init_csv_mkStore (recs : List Rec) : init_csv (mkStore recs) = mkStore recs := rfl

theorem init_csv_none : init_csv none = mkStore [] := by
  simp [init_csv, initContents, mkStore]

theorem pyGet_timestamp (r : Rec) (dfl : Option String) :
    pyGet (dictOfRec r) "timestamp" dfl = some r.timestamp := rfl

theorem pyGet_handled_by (r : Rec) (dfl : Option String) :
    pyGet (dictOfRec r) "handled_by" dfl = some r.handled_by := rfl

theorem pyGet_stock_id (r : Rec) (dfl : Option String) :
    pyGet (dictOfRec r) "stock_id" dfl = some r.stock_id := rfl

theorem pyGet_vin (r : Rec) (dfl : Option String) :
    pyGet (dictOfRec r) "vin" dfl = some r.vin := rfl

theorem pyGet_current_location (r : Rec) (dfl : Option String) :
    pyGet (dictOfRec r) "current_location" dfl = some r.current_location := rfl

theorem pyGet_previous_location (r : Rec) (dfl : Option String) :
    pyGet (dictOfRec r) "previous_location" dfl = some r.previous_location := rfl

theorem dictWriteRow_dictOfRec (r : Rec) : dictWriteRow (dictOfRec r) = renderRec r := rfl

theorem foldl_lastPick {α β : Type} (p : α → Bool) (g : α → β)
    (σ : Option β → α → Option β)
    (hσ : ∀ acc x, σ acc x = if p x then some (g x) else acc) :
    ∀ (l : List α) (init : Option β),
    l.foldl σ init = ((l.filter p).getLast?).elim init (fun x => some (g x)) := by
  intro l
  induction l with
  | nil => intro init; simp
  | cons x l ih =>
    intro init
    rw [List.foldl_cons, ih (σ init x), hσ]
    by_cases hp : p x = true
    · rw [List.filter_cons_of_pos hp]
      cases hfl : l.filter p with
      | nil => simp [hfl, hp]
      | cons y ys =>
        rw [List.getLast?_cons_cons]
        cases hgl : (y :: ys).getLast? with
        | none => simp [List.getLast?] at hgl
        | some z => simp [hgl]
    · rw [List.filter_cons_of_neg hp]
      simp [hp]

theorem foldl_countPartition {α β : Type} (p : α → Bool) (g : α → β)
    (σ : Nat × List β → α → Nat × List β)
    (hσ : ∀ acc x, σ acc x = if p x then (acc.1 + 1, acc.2) else (acc.1, acc.2 ++ [g x])) :
    ∀ (l : List α) (n : Nat) (acc : List β),
    l.foldl σ (n, acc)
      = (n + (l.filter p).length, acc ++ (l.filter (fun x => !p x)).map g) := by
  intro l
  induction l with
  | nil => intro n acc; simp
  | cons x l ih =>
    intro n acc
    rw [List.foldl_cons, hσ]
    by_cases hp : p x = true
    · rw [if_pos hp]
      show l.foldl σ (n + 1, acc) = _
      rw [ih]
      rw [List.filter_cons_of_pos hp, List.filter_cons_of_neg (by simp [hp])]
      simp [Prod.mk.injEq, List.length_cons]
      omega
    · rw [if_neg hp]
      show l.foldl σ (n, acc ++ [g x]) = _
      rw [ih]
      have hpf : p x = false := by simpa using hp
      rw [List.filter_cons_of_neg hp, List.filter_cons_of_pos (by simp [hpf])]
      simp [List.append_assoc]

theorem delete_mkStore (vin : String) (recs : List Rec) :
    delete_records_by_vin vin (mkStore recs)
      = ((recs.filter (fun r => decide (r.vin = vin))).length,
         mkStore (recs.filter (fun r => !decide (r.vin = vin)))) := by
  simp only [delete_records_by_vin]
  rw [show initContents (mkStore recs)
      = writeRow FIELDNAMES ++ (recs.map renderRec).flatten from rfl]
  rw [dictReader_mkStore, List.foldl_map]
  rw [foldl_countPartition (fun r => decide (r.vin = vin)) dictOfRec _ ?hstep]
  case hstep =>
    intro acc r
    by_cases h : r.vin = vin
    · simp [pyGet_vin, h]
    · simp [pyGet_vin, h]
  simp [mkStore, List.map_map]
  rw [show dictWriteRow ∘ dictOfRec = renderRec from rfl]

theorem find_previous_location_mkStore (vin sid : String) (recs : List Rec) :
    find_previous_location vin sid (mkStore recs)
      = ((recs.filter
            (fun r => decide ((r.vin = vin ∨ r.stock_id = sid) ∧ r.current_location ≠ ""))).getLast?).map
          (fun r => r.current_location) := by
  simp only [find_previous_location, mkStore]
  rw [show dictReader (writeRow FIELDNAMES ++ (recs.map renderRec).flatten)
      = recs.map dictOfRec from dictReader_mkStore recs]
  rw [List.foldl_map]
  rw [foldl_lastPick
      (fun r => decide ((r.vin = vin ∨ r.stock_id = sid) ∧ r.current_location ≠ ""))
      (fun r => r.current_location) _ ?hstep]
  case hstep =>
    intro acc r
    by_cases h1 : r.vin = vin ∨ r.stock_id = sid
    · by_cases h2 : r.current_location = ""
      · simp [pyGet_vin, pyGet_stock_id, pyGet_current_location, h1, h2]
      · simp [pyGet_vin, pyGet_stock_id, pyGet_current_location, h1, h2]
    · have hv : ¬ r.vin = vin := fun h => h1 (Or.inl h)
      have hs : ¬ r.stock_id = sid := fun h => h1 (Or.inr h)
      simp [pyGet_vin, pyGet_stock_id, pyGet_current_location, hv, hs]
  cases hL : (recs.filter
      (fun r => decide ((r.vin = vin ∨ r.stock_id = sid) ∧ r.current_location ≠ ""))).getLast? with
  | none => simp
  | some r => simp

theorem find_latest_mkStore (vin : String) (recs : List Rec) :
    find_latest_record_by_vin vin (mkStore recs)
      = (((recs.filter (fun r => decide (r.vin = vin))).getLast?).map dictOfRec,
         mkStore recs) := by
  simp only [find_latest_record_by_vin, load_records_mkStore]
  rw [List.foldl_map]
  rw [foldl_lastPick (fun r => decide (r.vin = vin)) dictOfRec _ ?hstep]
  case hstep =>
    intro acc r
    by_cases h : r.vin = vin
    · simp [pyGet_vin, h]
    · simp [pyGet_vin, h]
  cases hL : (recs.filter (fun r => decide (r.vin = vin))).getLast? with
  | none => simp
  | some r => simp

theorem appendAll_mkStore (recs : List Rec) :
    ∀ acc : List Rec,
    recs.foldl (fun s r => appendRec r s) (mkStore acc) = mkStore (acc ++ recs) := by
  induction recs with
  | nil => intro acc; simp
  | cons r rs ih =>
    intro acc
    rw [List.foldl_cons, appendRec_mkStore, ih (acc ++ [r])]
    simp

/-- C1, counterexample: one well-formed record appended via the append
operation to the initial state (backing file absent) is written without a
header row, so the subsequent load_all consumes it as the header and
returns zero records instead of one. -/
theorem C1_counterexample :
    (load_records
        ([({ timestamp := "t0", handled_by := "h0", stock_id := "s0", vin := "v0",
             current_location := "l0", previous_location := "" } : Rec)].foldl
          (fun s r => appendRec r s) none)).1 = []
    ∧ (1 : Nat) ≠ 0 := by
  exact ⟨by decide, by decide⟩

/-- C1, amended: appending any sequence of N records (fields arbitrary,
including embedded delimiters, quotes and newlines) to the freshly
initialized store and then loading returns exactly N records, in insertion
order, with every field of every record reading back exactly as appended. -/
theorem C1_roundtrip (recs : List Rec) :
    (load_records (recs.foldl (fun s r => appendRec r s) (init_csv none))).1
        = recs.map dictOfRec
    ∧ (load_records (recs.foldl (fun s r => appendRec r s) (init_csv none))).1.length
        = recs.length
    ∧ ∀ r : Rec,
        pyGet (dictOfRec r) "timestamp" none = some r.timestamp
        ∧ pyGet (dictOfRec r) "handled_by" none = some r.handled_by
        ∧ pyGet (dictOfRec r) "stock_id" none = some r.stock_id
        ∧ pyGet (dictOfRec r) "vin" none = some r.vin
        ∧ pyGet (dictOfRec r) "current_location" none = some r.current_location
        ∧ pyGet (dictOfRec r) "previous_location" none = some r.previous_location := by
  rw [init_csv_none, appendAll_mkStore recs [], load_records_mkStore]
  refine ⟨rfl, by simp, ?_⟩
  intro r
  exact ⟨rfl, rfl, rfl, rfl, rfl, rfl⟩

/-- C2: on any well-formed store, delete_by_vin returns the number of
records whose vin equals the target and leaves exactly the records whose
vin does not equal the target, in their original insertion order. -/
theorem C2_delete_by_vin (vin : String) (recs : List Rec) :
    delete_records_by_vin vin (mkStore recs)
      = ((recs.filter (fun r => decide (r.vin = vin))).length,
         mkStore (recs.filter (fun r => !decide (r.vin = vin)))) :=
  delete_mkStore vin recs

/-- C3, counterexample: when the last record matching the lookup keys has an
empty current_location, find_previous_location does not return that value
(the current_location of the last matching record, here empty): it returns
the older non-empty location instead. -/
theorem C3_counterexample :
    find_previous_location "A" "Z"
        (mkStore [⟨"t1", "h", "S1", "A", "L1", ""⟩, ⟨"t2", "h", "S2", "A", "", ""⟩])
      = some "L1"
    ∧ (([⟨"t1", "h", "S1", "A", "L1", ""⟩, ⟨"t2", "h", "S2", "A", "", ""⟩] :
          List Rec).getLast?).map (fun r => r.current_location) = some ""
    ∧ some "L1" ≠ (some "" : Option String) := by
  exact ⟨by decide, by decide, by decide⟩

/-- C3, amended: on any well-formed store in which every record has a
non-empty current_location, find_previous_location returns the
current_location of the last record (by insertion order) whose vin or
stock_id matches, and none when no record matches on either key. -/
theorem C3_previous_location (vin sid : String) (recs : List Rec)
    (h : ∀ r ∈ recs, r.current_location ≠ "") :
    find_previous_location vin sid (mkStore recs)
      = ((recs.filter (fun r => decide (r.vin = vin ∨ r.stock_id = sid))).getLast?).map
          (fun r => r.current_location) := by
  rw [find_previous_location_mkStore]
  have hfilter : recs.filter
        (fun r => decide ((r.vin = vin ∨ r.stock_id = sid) ∧ r.current_location ≠ ""))
      = recs.filter (fun r => decide (r.vin = vin ∨ r.stock_id = sid)) := by
    apply List.filter_congr
    intro r hr
    simp [h r hr]
  rw [hfilter]

/-- C3 witness: across-vin lookup by a reused stock_id returns the most
recent matching location. -/
theorem C3_witness :
    find_previous_location "C" "S1"
        (mkStore [⟨"t1", "h", "S1", "A", "L1", ""⟩, ⟨"t2", "h", "S1", "B", "L2", ""⟩])
      = some "L2" := by
  rw [C3_previous_location "C" "S1"
      [⟨"t1", "h", "S1", "A", "L1", ""⟩, ⟨"t2", "h", "S1", "B", "L2", ""⟩] (by decide)]
  decide

/-- C4: a submission of the update form with any of the four fields blank
after trimming leaves the store unchanged and answers with the error
redirect; with all four non-blank it appends exactly one record carrying
the server timestamp and the computed previous location, and answers with
the success redirect. -/
theorem C4_submit (now handled_by vin stock_id current_location : String) (recs : List Rec) :
    ((pyStrip handled_by = "" ∨ pyStrip vin = "" ∨ pyStrip stock_id = ""
        ∨ pyStrip current_location = "") →
      submit now handled_by vin stock_id current_location (mkStore recs)
        = (⟨"/update?error=All%20fields%20are%20required.", 303⟩, mkStore recs))
    ∧ (¬ (pyStrip handled_by = "" ∨ pyStrip vin = "" ∨ pyStrip stock_id = ""
        ∨ pyStrip current_location = "") →
      submit now handled_by vin stock_id current_location (mkStore recs)
        = (⟨"/update?success=Saved%20update.", 303⟩,
           mkStore (recs ++
             [⟨now, pyStrip handled_by, pyStrip stock_id, pyStrip vin,
               pyStrip current_location,
               (find_previous_location (pyStrip vin) (pyStrip stock_id)
                 (mkStore recs)).getD ""⟩]))) := by
  constructor
  · intro h
    simp only [submit]
    rw [if_pos h]
  · intro h
    simp only [submit]
    rw [if_neg h, appendRec_mkStore]

/-- C4 witness: a blank handled_by leaves the store unchanged; with all
fields filled, exactly the submitted record is appended. -/
theorem C4_witness :
    (submit "T" " " "V" "S" "L" (mkStore [])).2 = mkStore []
    ∧ (submit "T" "H" "V" "S" "L" (mkStore [])).2
        = mkStore [⟨"T", "H", "S", "V", "L", ""⟩] := by
  constructor
  · rw [(C4_submit "T" " " "V" "S" "L" []).1 (by decide)]
  · rw [(C4_submit "T" "H" "V" "S" "L" []).2 (by decide)]
    decide

/-- C5: find_latest_by_vin returns the last record in insertion order whose
vin matches, and none when no record matches; on a fresh store (empty or
with the backing file absent) both find_latest_by_vin and
find_previous_location return none. -/
theorem C5_find_latest (vin sid : String) (recs : List Rec) :
    (find_latest_record_by_vin vin (mkStore recs)).1
        = ((recs.filter (fun r => decide (r.vin = vin))).getLast?).map dictOfRec
    ∧ (find_latest_record_by_vin vin (mkStore [])).1 = none
    ∧ (find_latest_record_by_vin vin none).1 = none
    ∧ find_previous_location vin sid (mkStore []) = none
    ∧ find_previous_location vin sid none = none := by
  refine ⟨?_, ?_, ?_, ?_, rfl⟩
  · rw [find_latest_mkStore]
  · rw [show (find_latest_record_by_vin vin (mkStore [])).1
        = ((([] : List Rec).filter (fun r => decide (r.vin = vin))).getLast?).map dictOfRec
        from congrArg Prod.fst (find_latest_mkStore vin [])]
    simp
  · simp only [find_latest_record_by_vin]
    rw [show (load_records none).1 = [] by decide]
    rfl
  · rw [find_previous_location_mkStore]
    simp

/-- C6: building the spreadsheet or the document artifact only runs the
initialization check on the store, and the records read back afterwards are
exactly those read back before: exports change neither the record count nor
any record content. -/
theorem C6_exports (s : St) :
    (build_excel s).2 = init_csv s
    ∧ (build_pdf s).2 = init_csv s
    ∧ (load_records ((build_excel s).2)).1 = (load_records s).1
    ∧ (load_records ((build_pdf s).2)).1 = (load_records s).1 := by
  have hinit : (load_records (init_csv s)).1 = (load_records s).1 := by
    cases s with
    | none => rfl
    | some c => rfl
  exact ⟨rfl, rfl, hinit, hinit⟩

/-- C7, counterexample: the append operation applied to the initial state
(backing file absent) produces a file that does not begin with the header
row. -/
theorem C7_counterexample :
    [Op.opAppend ⟨"t0", "h0", "s0", "v0", "l0", ""⟩].foldl applyOp none
      = some (renderRec ⟨"t0", "h0", "s0", "v0", "l0", ""⟩)
    ∧ (renderRec ⟨"t0", "h0", "s0", "v0", "l0", ""⟩).take (writeRow FIELDNAMES).length
        ≠ writeRow FIELDNAMES := by
  exact ⟨rfl, by decide⟩

/-- C7, amended: starting from any well-formed store (in particular the
freshly initialized one), every sequence of the operations
ensure_initialized, append and delete_by_vin leaves the persisted file as
the fixed header row followed only by six-field data rows. -/
theorem C7_header_invariant (ops : List Op) (recs : List Rec) :
    ∃ rows : List (List String), (∀ r ∈ rows, r.length = 6)
      ∧ ops.foldl applyOp (mkStore recs)
          = some (writeRow FIELDNAMES ++ (rows.map writeRow).flatten) := by
  have key : ∀ (ops : List Op) (recs : List Rec),
      ∃ recs2 : List Rec, ops.foldl applyOp (mkStore recs) = mkStore recs2 := by
    intro ops
    induction ops with
    | nil => intro recs; exact ⟨recs, rfl⟩
    | cons op ops ih =>
      intro recs
      rw [List.foldl_cons]
      cases op with
      | opInit =>
        rw [show applyOp (mkStore recs) Op.opInit = mkStore recs from rfl]
        exact ih recs
      | opAppend r =>
        rw [show applyOp (mkStore recs) (Op.opAppend r) = appendRec r (mkStore recs) from rfl,
            appendRec_mkStore]
        exact ih (recs ++ [r])
      | opDelete v =>
        rw [show applyOp (mkStore recs) (Op.opDelete v)
            = (delete_records_by_vin v (mkStore recs)).2 from rfl, delete_mkStore]
        exact ih (recs.filter (fun r => !decide (r.vin = v)))
  obtain ⟨recs2, h2⟩ := key ops recs
  refine ⟨recs2.map recRow, ?_, ?_⟩
  · intro r hr
    obtain ⟨x, _, rfl⟩ := List.mem_map.mp hr
    rfl
  · rw [h2]
    simp [mkStore, List.map_map]
    rw [show writeRow ∘ recRow = renderRec from rfl]

/-- C9: find_previous_location returns the current_location of the most
recent record matching on vin or stock_id whose current_location is
non-empty, and none when every matching record has an empty
current_location; in particular it never returns the empty location of the
last matching record. -/
theorem C9_previous_location_nonempty (vin sid : String) (recs : List Rec) :
    find_previous_location vin sid (mkStore recs)
      = ((recs.filter
            (fun r => decide ((r.vin = vin ∨ r.stock_id = sid)
              ∧ r.current_location ≠ ""))).getLast?).map
          (fun r => r.current_location) :=
  find_previous_location_mkStore vin sid recs

/-- C10: when the backing file is absent, load_all returns the empty
sequence and creates the file holding only the header row; the search
lookup, both export builders and the raw-file download all create the file
the same way. -/
theorem C10_init_on_read (vin : String) :
    (load_records none).1 = []
    ∧ (load_records none).2 = some (writeRow FIELDNAMES)
    ∧ (find_latest_record_by_vin vin none).2 = some (writeRow FIELDNAMES)
    ∧ (build_excel none).2 = some (writeRow FIELDNAMES)
    ∧ (build_pdf none).2 = some (writeRow FIELDNAMES)
    ∧ download_csv none = some (writeRow FIELDNAMES) := by
  refine ⟨by decide, rfl, rfl, rfl, rfl, rfl⟩

end VTrack
